import Mathlib

/-!
# A verification model of `watson/watson.py`

This file is a shallow embedding, in Lean 4, of the single source file
`src/watson/watson.py` of the Watson time tracker, together with theorems
settling the specification claims about it.

Modelling conventions:

* Python `arrow.Arrow` instants are modelled by `Instant`: an absolute point
  in time given as `sec` (the floor of the epoch-second, which is exactly what
  the old `arrow` property `.timestamp` returns via
  `calendar.timegm(utctimetuple())`), `micro` (the sub-second part in
  microseconds, discarded by `.timestamp`), and `tz` (the display offset in
  minutes, which never affects the absolute value).
* Python dicts used as string-keyed mappings are modelled by association
  lists in insertion order; `setChild` has Python dict assignment semantics
  (replace in place if the key exists, append otherwise).
* The in-place mutation `self.project(project)['frames'].append(frame)`
  (mutation of the tree through the node reference returned by resolution) is
  rendered functionally by `modifyAtSegs`, which performs the same
  resolve-or-create walk as `resolveSegs` and applies the update at the
  resolved node; the coherence lemma `resolveSegs_fst_eq_modifyAtSegs_id`
  ties the two walks together.
* `Watson.push` never writes to `self.tree` or `self._current` in the Python
  source: `frames()` builds fresh dicts from the raw tree records, and `push`
  builds a second layer of fresh dicts from those, so the `frame['id'] = _id`
  assignments in `push` only touch the batch copies that `push` returns.
  Accordingly the embedded `Watson.push` returns the (mutated) batch and no
  store: there is no store mutation in the source to embed.
* External collaborators are modelled by their observable behaviour at the
  call site: the filesystem read plus `json.load` of `_load_watson_file`
  becomes `ReadOutcome` (an `IOError`, or a byte size together with the JSON
  parser's verdict), and the two HTTP calls of `push` become `Remote`
  (connection failure, or a status code with the decoded response body).
-/

/-! ## Time value codec (`_parse_date`, `_format_date`, `str(arrow)`) -/

/-- An `arrow.Arrow` instant: `sec` is the floor epoch-second, `micro` the
sub-second part in microseconds, `tz` the display offset in minutes. -/
structure Instant where
  sec : Int
  micro : Nat := 0
  tz : Int := 0
deriving DecidableEq, Repr

/-- `Watson._parse_date`: `arrow.Arrow.utcfromtimestamp(date)` — a UTC instant
with the given epoch-second and no sub-second part. -/
def parseDate (date : Int) : Instant :=
  { sec := date, micro := 0, tz := 0 }

/-- The value a persisted date can have at run time: an `arrow.Arrow` object
(in-memory session starts) or the raw number read back from the Watson file
(the `current` setter keeps non-string values as they are). -/
inductive DateVal where
  | instant (i : Instant)
  | num (n : Int)
deriving DecidableEq, Repr

/-- `Watson._format_date`: for an `arrow.Arrow` argument, the property
`.timestamp` (integer epoch-seconds); for a numeric argument, `arrow.get(n)`
re-interprets `n` as an epoch-second and `.timestamp` gives it back. -/
def formatDate : DateVal → Int
  | .instant i => i.sec
  | .num n => n

/-- Two-digit decimal rendering (for months, days, hours, ...). -/
def pad2 (n : Nat) : String :=
  if n < 10 then "0" ++ toString n else toString n

/-- Four-digit decimal rendering (for years). -/
def pad4 (n : Nat) : String :=
  if n < 10 then "000" ++ toString n
  else if n < 100 then "00" ++ toString n
  else if n < 1000 then "0" ++ toString n
  else toString n

/-- Six-digit decimal rendering (for microseconds). -/
def pad6 (n : Nat) : String :=
  if n < 10 then "00000" ++ toString n
  else if n < 100 then "0000" ++ toString n
  else if n < 1000 then "000" ++ toString n
  else if n < 10000 then "00" ++ toString n
  else if n < 100000 then "0" ++ toString n
  else toString n

/-- Gregorian date from a day count since 1970-01-01 (proleptic calendar,
the standard days-to-civil conversion). Returns `(year, month, day)`. -/
def civilFromDays (z0 : Int) : Int × Nat × Nat :=
  let z := z0 + 719468
  let era := z.fdiv 146097
  let doe := (z - era * 146097).toNat
  let yoe := (doe - doe / 1460 + doe / 36524 - doe / 146096) / 365
  let y : Int := (yoe : Int) + era * 400
  let doy := doe - (365 * yoe + yoe / 4 - yoe / 100)
  let mp := (5 * doy + 2) / 153
  let d := doy - (153 * mp + 2) / 5 + 1
  let m := if mp < 10 then mp + 3 else mp - 9
  (if m ≤ 2 then y + 1 else y, m, d)

/-- The `±HH:MM` suffix of `datetime.isoformat()` for an offset in minutes. -/
def offsetStr (off : Int) : String :=
  if off < 0 then "-" ++ pad2 ((-off).toNat / 60) ++ ":" ++ pad2 ((-off).toNat % 60)
  else "+" ++ pad2 (off.toNat / 60) ++ ":" ++ pad2 (off.toNat % 60)

/-- `str(arrow)`, i.e. `datetime.isoformat()`: the civil date and time in the
instant's own timezone, the microseconds only when non-zero, then the offset
suffix. -/
def instantStr (i : Instant) : String :=
  let t := i.sec + i.tz * 60
  let days := t.fdiv 86400
  let rem := (t - days * 86400).toNat
  let c := civilFromDays days
  pad4 c.1.toNat ++ "-" ++ pad2 c.2.1 ++ "-" ++ pad2 c.2.2 ++ "T" ++
    pad2 (rem / 3600) ++ ":" ++ pad2 (rem % 3600 / 60) ++ ":" ++ pad2 (rem % 60) ++
    (if i.micro = 0 then "" else "." ++ pad6 i.micro) ++ offsetStr i.tz

/-! ## Python string primitives used by the source -/

/-- `str.split('/')` on the underlying character list: cut at every `'/'`;
the split of the empty list is `[[]]`, so `"".split("/") == [""]`. -/
def splitSlashChars : List Char → List (List Char)
  | [] => [[]]
  | c :: rest =>
    match splitSlashChars rest with
    | [] => [[]]
    | cur :: done => if c = '/' then [] :: cur :: done else (c :: cur) :: done

/-- Python `name.split('/')`. -/
def splitSlash (s : String) : List String :=
  (splitSlashChars s.data).map String.mk

/-- Python string comparison: lexicographic on code points. -/
def charListLe : List Char → List Char → Bool
  | [], _ => true
  | _ :: _, [] => false
  | a :: as, b :: bs => if a = b then charListLe as bs else decide (a < b)

/-- Python `<=` on strings, as the ordering used by `sorted`. -/
def strLe (a b : String) : Prop := charListLe a.data b.data = true

instance : DecidableRel strLe := fun a b => inferInstanceAs (Decidable (_ = true))

/-! ## The project tree -/

/-- One raw frame record as stored in the tree (and in the Watson file):
the dict `{'start': ..., 'stop': ...}` written by `add_frame`, with the
optional `'message'` key and the optional `'id'` key that a previously
synchronized file may carry. -/
structure RawFrame where
  start : Int
  stop : Int
  message : Option String := none
  id : Option Int := none
deriving DecidableEq, Repr

/-- A node of the project tree: the dict `{'frames': [...], 'projects': {...}}`.
Children are an insertion-ordered association list with unique keys (Python
dict). The root `self.tree = {'projects': ...}` is modelled as a node whose
`frames` list is empty and never read or written (the root dict has no
`'frames'` key and no code path touches one). -/
inductive ProjectNode : Type where
  | mk (frames : List RawFrame) (projects : List (String × ProjectNode))
deriving Repr

/-- The `'frames'` entry of a node. -/
def ProjectNode.frames : ProjectNode → List RawFrame
  | .mk fs _ => fs

/-- The `'projects'` entry of a node. -/
def ProjectNode.projects : ProjectNode → List (String × ProjectNode)
  | .mk _ ps => ps

/-- The fresh node `{'frames': [], 'projects': {}}` created on demand. -/
def emptyNode : ProjectNode := .mk [] []

/-- Python dict lookup `d[k]` / `k in d` on the children mapping. -/
def lookupChild : List (String × ProjectNode) → String → Option ProjectNode
  | [], _ => none
  | (k, v) :: rest, key => if k = key then some v else lookupChild rest key

/-- Python dict assignment `d[k] = v`: replace in place when the key exists,
append at the end otherwise. -/
def setChild : List (String × ProjectNode) → String → ProjectNode → List (String × ProjectNode)
  | [], key, val => [(key, val)]
  | (k, v) :: rest, key, val =>
    if k = key then (key, val) :: rest else (k, v) :: setChild rest key val

/-- The loop body of `Watson.project`: walk the given path segments from
`node`, creating any missing child as `{'frames': [], 'projects': {}}`.
Returns the updated tree together with the resolved node (the Python method
returns a live reference into the mutated tree). -/
def resolveSegs : ProjectNode → List String → ProjectNode × ProjectNode
  | node, [] => (node, node)
  | node, s :: rest =>
    let child := (lookupChild node.projects s).getD emptyNode
    let r := resolveSegs child rest
    (.mk node.frames (setChild node.projects s r.1), r.2)

/-- The same resolve-or-create walk as `resolveSegs`, applying `g` at the
resolved node: this is the functional rendering of mutating the tree through
the node reference returned by `Watson.project`. -/
def modifyAtSegs (g : ProjectNode → ProjectNode) : ProjectNode → List String → ProjectNode
  | node, [] => g node
  | node, s :: rest =>
    let child := (lookupChild node.projects s).getD emptyNode
    .mk node.frames (setChild node.projects s (modifyAtSegs g child rest))

/-- Pure navigation (no creation): the node a path currently denotes, if any.
Observation helper used only to state theorems. -/
def nodeAtSegs : ProjectNode → List String → Option ProjectNode
  | node, [] => some node
  | node, s :: rest =>
    match lookupChild node.projects s with
    | some c => nodeAtSegs c rest
    | none => none

/-- The `'/'`-joined rendering of a non-empty segment list. Observation helper
used only to state theorems. -/
def joinPath : List String → String
  | [] => ""
  | [s] => s
  | s :: rest => s ++ "/" ++ joinPath rest

/-- The node a non-empty path denotes below a children mapping, if any.
Observation helper used only to state theorems. -/
def nodeAtChildren (l : List (String × ProjectNode)) : List String → Option ProjectNode
  | [] => none
  | s :: rest => (lookupChild l s).bind fun c => nodeAtSegs c rest

/-- Well-formedness of a children mapping: keys are unique at every level
(the invariant Python dicts maintain by construction). Observation helper
used only to state theorems. -/
def childrenWF : List (String × ProjectNode) → Bool
  | [] => true
  | (name, .mk _ ps) :: rest =>
    !(rest.map Prod.fst).contains name && childrenWF ps && childrenWF rest

/-- Total number of raw frames stored below a children mapping. Observation
helper used only to state theorems. -/
def countFramesChildren : List (String × ProjectNode) → Nat
  | [] => 0
  | (_, .mk fs ps) :: rest => fs.length + countFramesChildren ps + countFramesChildren rest

/-- A copy of a children mapping with every `'message'` key removed.
Observation helper used only to state theorems. -/
def eraseMsgChildren : List (String × ProjectNode) → List (String × ProjectNode)
  | [] => []
  | (name, .mk fs ps) :: rest =>
    (name, .mk (fs.map fun rf => { rf with message := none }) (eraseMsgChildren ps)) ::
      eraseMsgChildren rest

/-! ## The store -/

/-- The running session `self._current`: the dict
`{'project': ..., 'start': ...}` kept by the `current` setter. The start is
an `arrow.Arrow` when the session was started in this process and the raw
number from the Watson file when it was loaded (the setter only converts
strings, not numbers). -/
structure CurrentRec where
  project : String
  start : DateVal
deriving DecidableEq, Repr

/-- The in-memory store: `self.tree` and `self._current`. -/
structure Watson where
  tree : ProjectNode
  current : Option CurrentRec

/-- `self.is_started`. -/
def Watson.isStarted (w : Watson) : Bool := w.current.isSome

/-- The persisted `current` entry `{'project': ..., 'start': ...}`; either
key may be missing in a hand-written file (`value.get` calls in the setter). -/
structure DocCurrent where
  project : Option String := none
  start : Option Int := none
deriving DecidableEq, Repr

/-- A parsed Watson document: optional `projects` and `current` keys
(`content.get('projects', {})`, `content.get('current')`). -/
structure Document where
  projects : Option (List (String × ProjectNode)) := none
  current : Option DocCurrent := none

/-- The typed failures of the spec's error taxonomy; the source raises a
single `WatsonError` class with a distinct message at each of these sites. -/
inductive WatsonErr where
  | corruptStore (detail : String)
  | alreadyRunning
  | emptyProject
  | notRunning
  | remoteUnreachable
  | remoteRejected
deriving DecidableEq, Repr

/-- The `current` property setter: `None`-like or `'project'`-missing values
reset to idle; a present numeric start is kept raw (the setter's
`isinstance(start, str)` parse branch is never taken on the documents
modelled here, whose start values are the numbers `dump` writes); a missing
start defaults to `arrow.now()` (passed here as `now`). -/
def setCurrentFromDoc (now : Instant) : Option DocCurrent → Option CurrentRec
  | none => none
  | some c =>
    match c.project with
    | none => none
    | some p =>
      some { project := p,
             start := match c.start with
                      | some n => .num n
                      | none => .instant now }

/-- `Watson._load` applied to a parsed document: `projects` defaults to the
empty mapping, `current` goes through the `current` setter. -/
def Watson.load (now : Instant) (doc : Document) : Watson :=
  { tree := .mk [] (doc.projects.getD []),
    current := setCurrentFromDoc now doc.current }

/-- What `open` plus `json.load` can yield for the Watson file: an `IOError`
(missing/unopenable file), or the file's byte size together with the JSON
parser's verdict on its contents. -/
inductive ReadOutcome where
  | ioError
  | content (size : Nat) (parsed : Except String Document)

/-- `Watson._load_watson_file`: an `IOError` yields the empty document; a
`ValueError` from `json.load` yields the empty document when the file has
zero size and raises `WatsonError` ("Invalid Watson file ...") otherwise. -/
def loadWatsonFile : ReadOutcome → Except WatsonErr Document
  | .ioError => .ok {}
  | .content _ (.ok doc) => .ok doc
  | .content size (.error e) =>
    if size = 0 then .ok {} else .error (.corruptStore e)

/-- `Watson.__init__` with no explicit content: read the Watson file, then
`_load` the result. -/
def watsonFromSource (now : Instant) (src : ReadOutcome) : Except WatsonErr Watson :=
  (loadWatsonFile src).map (Watson.load now)

/-- `Watson.dump`: a new document carrying the tree's `projects` mapping and,
when a session is running, its `current` record with the start formatted to
an integer epoch-second. -/
def Watson.dump (w : Watson) : Document :=
  { projects := some w.tree.projects,
    current := w.current.map fun c =>
      { project := some c.project, start := some (formatDate c.start) } }

/-- `Watson.start`: refuse when already running, refuse the empty project
name (`if not project`), otherwise set the current session through the
setter (start defaulting to `arrow.now()`) and return it. -/
def Watson.start (w : Watson) (project : String) (now : Instant) :
    Except WatsonErr (Watson × CurrentRec) :=
  if w.isStarted then .error .alreadyRunning
  else if project = "" then .error .emptyProject
  else
    let c : CurrentRec := { project := project, start := .instant now }
    .ok ({ w with current := some c }, c)

/-- The message actually stored by `add_frame`: `if message:` keeps only a
truthy (non-`None`, non-empty) string. -/
def truthyMessage : Option String → Option String
  | none => none
  | some m => if m = "" then none else some m

/-- The node update `node['frames'].append(frame)`. -/
def appendFrameNode (f : RawFrame) (n : ProjectNode) : ProjectNode :=
  .mk (n.frames ++ [f]) n.projects

/-- `Watson.add_frame`: build the raw record with formatted dates and the
optional message, then append it to the frames of the resolved (and created
on demand) project node. -/
def Watson.addFrame (w : Watson) (project : String) (start stop : DateVal)
    (message : Option String) : Watson :=
  let frame : RawFrame :=
    { start := formatDate start, stop := formatDate stop,
      message := truthyMessage message, id := none }
  { w with tree := modifyAtSegs (appendFrameNode frame) w.tree (splitSlash project) }

/-- `Watson.stop`: refuse when idle; otherwise add the frame for the old
session (its stop instant being `arrow.now()`), reset the session, and
return the old session record (project and start only). -/
def Watson.stop (w : Watson) (now : Instant) (message : Option String) :
    Except WatsonErr (Watson × CurrentRec) :=
  match w.current with
  | none => .error .notRunning
  | some old =>
    let w' := w.addFrame old.project old.start (.instant now) message
    .ok ({ w' with current := none }, old)

/-- `Watson.cancel`: refuse when idle; otherwise discard the session and
return the old session record. -/
def Watson.cancel (w : Watson) : Except WatsonErr (Watson × CurrentRec) :=
  match w.current with
  | none => .error .notRunning
  | some old => .ok ({ w with current := none }, old)

/-- `Watson.project`: resolve-or-create the node named by the `'/'`-separated
path; the store's tree is updated and the resolved node returned. -/
def Watson.project (w : Watson) (name : String) : Watson × ProjectNode :=
  let r := resolveSegs w.tree (splitSlash name)
  ({ w with tree := r.1 }, r.2)

/-- The recursion of `Watson.projects`: every reachable node rendered as its
full path (`parent + name`), children first in encounter order, each followed
by its own subtree. -/
def getProjectsList : List (String × ProjectNode) → String → List String
  | [], _ => []
  | (name, .mk _ ps) :: rest, parent =>
    (parent ++ name) :: (getProjectsList ps (parent ++ name ++ "/") ++ getProjectsList rest parent)

/-- `Watson.projects`: all project paths, sorted (`sorted` = stable ascending
sort, modelled by insertion sort under the string order). -/
def Watson.projects (w : Watson) : List String :=
  List.insertionSort strLe (getProjectsList w.tree.projects "")

/-- One flattened frame as built by `Watson.frames`: a fresh dict with
exactly the keys `project`, `id`, `start` and `stop`. -/
structure FlatFrame where
  project : String
  id : Option Int
  start : Instant
  stop : Instant
deriving DecidableEq, Repr

/-- The inner loop of `Watson.frames` (`get_frames`): for each child, first
its own raw frames (each parsed into a fresh flat record with the full path),
then its subtree, then the remaining siblings. -/
def getFramesChildren : List (String × ProjectNode) → String → List FlatFrame
  | [], _ => []
  | (name, .mk fs ps) :: rest, anc =>
    (fs.map fun rf =>
      { project := anc ++ name, id := rf.id,
        start := parseDate rf.start, stop := parseDate rf.stop }) ++
    getFramesChildren ps (anc ++ name ++ "/") ++ getFramesChildren rest anc

/-- The absolute value of a frame's start instant in microseconds: comparison
of `arrow.Arrow` objects is comparison of the absolute instants they denote. -/
def frameKey (f : FlatFrame) : Int :=
  f.start.sec * 1000000 + f.start.micro

/-- The sort order of `Watson.frames` (`key=lambda e: e['start']`). -/
def frameLe (a b : FlatFrame) : Prop :=
  frameKey a ≤ frameKey b

instance : DecidableRel frameLe := fun a b => inferInstanceAs (Decidable (_ ≤ _))

instance : IsTotal FlatFrame frameLe := ⟨fun a b => Int.le_total (frameKey a) (frameKey b)⟩

instance : IsTrans FlatFrame frameLe := ⟨fun _ _ _ h1 h2 => Int.le_trans h1 h2⟩

/-- `Watson.frames`: the flattened frame list sorted by start time (`sorted`
with `key=start` = stable ascending sort, modelled by insertion sort). -/
def Watson.frames (w : Watson) : List FlatFrame :=
  List.insertionSort frameLe (getFramesChildren w.tree.projects "")

/-! ## The sync reconciler (`Watson.push`) -/

/-- One element of the `frames` tuple `push` builds: the dict
`{'id': ..., 'start': str(...), 'stop': str(...), 'project': ....split('/')}`. -/
structure PushItem where
  id : Option Int
  start : String
  stop : String
  project : List String
deriving DecidableEq, Repr

/-- A JSON value, for stating what `json.dumps` puts on the wire. -/
inductive JVal where
  | null
  | num (n : Int)
  | str (s : String)
  | arr (elems : List JVal)
  | obj (fields : List (String × JVal))

/-- `json.dumps` of a push item: all four keys are always present; a `None`
id serializes as `null`. -/
def PushItem.toJson (it : PushItem) : JVal :=
  .obj [("id", match it.id with | none => .null | some n => .num n),
        ("start", .str it.start),
        ("stop", .str it.stop),
        ("project", .arr (it.project.map .str))]

/-- The element of the `frames` tuple built from one flattened frame. -/
def mkPushItem (f : FlatFrame) : PushItem :=
  { id := f.id, start := instantStr f.start, stop := instantStr f.stop,
    project := splitSlash f.project }

/-- The `frames` tuple of `push`. -/
def pushFrameItems (w : Watson) : List PushItem :=
  (w.frames).map mkPushItem

/-- `new_frames`: the items whose `id` is `None`. -/
def newFrames (w : Watson) : List PushItem :=
  (pushFrameItems w).filter fun f => f.id.isNone

/-- `existing_frames`: with `force`, the items that already carry an id;
without `force`, the empty list. -/
def existingFrames (w : Watson) (force : Bool) : List PushItem :=
  if force then (pushFrameItems w).filter fun f => !f.id.isNone else []

/-- An HTTP call as `push` observes it: a `requests.ConnectionError`, or a
response with a status code and a decoded JSON body. -/
inductive HttpOutcome (β : Type) where
  | connError
  | response (status : Nat) (body : β)

/-- The remote collaborator for one `push` call: the POST on `/frames/`
answers with a list of ids, the PUT with a bare status. -/
structure Remote where
  post : HttpOutcome (List Int)
  put : HttpOutcome Unit

/-- One returned element of `new_frames` after the id-assignment loop:
`zip(new_frames, ids)` mutates the first `min(len(new_frames), len(ids))`
dicts (setting `'id'`, deleting `'project'`) and leaves the rest as built. -/
inductive RetItem where
  | created (id : Int) (start stop : String)
  | untouched (it : PushItem)
deriving DecidableEq, Repr

/-- The `for frame, _id in zip(new_frames, ids)` loop. -/
def assignIds : List PushItem → List Int → List RetItem
  | its, [] => its.map .untouched
  | [], _ :: _ => []
  | it :: its, i :: ids => .created i it.start it.stop :: assignIds its ids

/-- `Watson.push`: partition the flattened frames, POST the new ones (201
expected, ids assigned in request order), PUT the existing ones when forced
(200 expected), return the new-frame batch. The store itself is not touched
(see the module docstring). -/
def Watson.push (w : Watson) (force : Bool) (r : Remote) :
    Except WatsonErr (List RetItem) :=
  let news := newFrames w
  let exist := existingFrames w force
  let postPhase : Except WatsonErr (List RetItem) :=
    match news with
    | [] => .ok []
    | _ :: _ =>
      match r.post with
      | .connError => .error .remoteUnreachable
      | .response status ids =>
        if status = 201 then .ok (assignIds news ids) else .error .remoteRejected
  match postPhase with
  | .error e => .error e
  | .ok ret =>
    match exist with
    | [] => .ok ret
    | _ :: _ =>
      match r.put with
      | .connError => .error .remoteUnreachable
      | .response status _ =>
        if status = 200 then .ok ret else .error .remoteRejected

/-! ## Observation helpers for theorem statements -/

/-- Observational equality of session states "to the second": both idle, or
both running the same project with start values denoting the same
epoch-second (`formatDate` is exactly that observation). -/
def sameSessionToSecond : Option CurrentRec → Option CurrentRec → Prop
  | none, none => True
  | some a, some b => a.project = b.project ∧ formatDate a.start = formatDate b.start
  | _, _ => False

/-- Total number of frames stored in a store (root frames included for
totality; the root's frame list is empty in every reachable store). -/
def Watson.totalFrames (w : Watson) : Nat :=
  w.tree.frames.length + countFramesChildren w.tree.projects

/-- The same store with every frame annotation removed. Observation helper
used only to state theorems. -/
def Watson.eraseMessages (w : Watson) : Watson :=
  { w with tree := .mk w.tree.frames (eraseMsgChildren w.tree.projects) }

/-- The single creation-batch item of `sampleOneFrame`. -/
def samplePushItem : PushItem :=
  { id := none, start := "1970-01-01T00:00:00+00:00",
    stop := "1970-01-01T00:00:01+00:00", project := ["a"] }

/-! ## Concrete sample stores for witnesses -/

/-- The empty store. -/
def sampleEmpty : Watson := { tree := .mk [] [], current := none }

/-- A store with a single unsynchronized frame under project `a`. -/
def sampleOneFrame : Watson :=
  { tree := .mk [] [("a", .mk [{ start := 0, stop := 1 }] [])], current := none }

/-- The same store after the id write-back the specification expects from a
successful sync. -/
def sampleOneFrameSynced : Watson :=
  { tree := .mk [] [("a", .mk [{ start := 0, stop := 1, id := some 42 }] [])],
    current := none }

/-- A store with a running session and some synchronized history. -/
def sampleRunning : Watson :=
  { tree := .mk []
      [("a", .mk [{ start := 0, stop := 1, message := some "hi", id := some 7 }]
        [("b", .mk [{ start := 3, stop := 4 }] [])])],
    current := some { project := "a/b", start := .instant { sec := 5, micro := 250000, tz := 60 } } }

/-! ## Shared lemmas about the children mapping and resolution -/

theorem lookup_setChild_self (l : List (String × ProjectNode)) (k : String) (v : ProjectNode) :
    lookupChild (setChild l k v) k = some v := by
  induction l with
  | nil => simp [setChild, lookupChild]
  | cons hd rest ih =>
    obtain ⟨a, b⟩ := hd
    by_cases h : a = k
    · simp [setChild, h, lookupChild]
    · simp [setChild, h, lookupChild, ih]

theorem lookup_setChild_ne (l : List (String × ProjectNode)) (k key : String) (v : ProjectNode)
    (h : k ≠ key) : lookupChild (setChild l k v) key = lookupChild l key := by
  induction l with
  | nil => simp [setChild, lookupChild, h]
  | cons hd rest ih =>
    obtain ⟨a, b⟩ := hd
    by_cases ha : a = k
    · subst ha
      simp [setChild, lookupChild, h]
    · simp [setChild, ha, lookupChild, ih]

theorem setChild_setChild (l : List (String × ProjectNode)) (k : String) (v v' : ProjectNode) :
    setChild (setChild l k v) k v' = setChild l k v' := by
  induction l with
  | nil => simp [setChild]
  | cons hd rest ih =>
    obtain ⟨a, b⟩ := hd
    by_cases h : a = k
    · simp [setChild, h]
    · simp [setChild, h, ih]

/-- Resolving the same segment list twice: the tree is unchanged and the same
node comes back. -/
theorem resolveSegs_idem (segs : List String) :
    ∀ node : ProjectNode, resolveSegs (resolveSegs node segs).1 segs = resolveSegs node segs := by
  induction segs with
  | nil => intro node; simp [resolveSegs]
  | cons s rest ih =>
    intro node
    cases node with
    | mk fs ps =>
      simp only [resolveSegs, ProjectNode.projects, ProjectNode.frames,
        lookup_setChild_self, Option.getD_some, setChild_setChild, ih]

/-- Resolution does not disturb the other children of the node it descends
through. -/
theorem resolveSegs_sibling (node : ProjectNode) (s : String) (rest : List String)
    (k : String) (h : k ≠ s) :
    lookupChild ((resolveSegs node (s :: rest)).1).projects k = lookupChild node.projects k := by
  simp only [resolveSegs, ProjectNode.projects]
  exact lookup_setChild_ne _ s k _ (fun hsk => h hsk.symm)

/-- The child a resolution descends into is the resolved subtree. -/
theorem resolveSegs_head_child (node : ProjectNode) (s : String) (rest : List String) :
    lookupChild ((resolveSegs node (s :: rest)).1).projects s =
      some (resolveSegs ((lookupChild node.projects s).getD emptyNode) rest).1 := by
  simp only [resolveSegs, ProjectNode.projects]
  exact lookup_setChild_self _ s _

/-- The resolved node of a cons path is the resolved node of the child. -/
theorem resolveSegs_snd_cons (node : ProjectNode) (s : String) (rest : List String) :
    (resolveSegs node (s :: rest)).2 =
      (resolveSegs ((lookupChild node.projects s).getD emptyNode) rest).2 := rfl

/-- Coherence of the two resolve-or-create walks: the tree `Watson.project`
leaves behind is the tree `modifyAtSegs` produces with the identity update. -/
theorem resolveSegs_fst_eq_modifyAtSegs_id (segs : List String) :
    ∀ node : ProjectNode, (resolveSegs node segs).1 = modifyAtSegs id node segs := by
  induction segs with
  | nil => intro node; simp [resolveSegs, modifyAtSegs]
  | cons s rest ih => intro node; simp [resolveSegs, modifyAtSegs, ih]

/-- `modifyAtSegs` applies the update exactly at the node resolution returns. -/
theorem nodeAtSegs_modifyAtSegs (g : ProjectNode → ProjectNode) (segs : List String) :
    ∀ node : ProjectNode,
      nodeAtSegs (modifyAtSegs g node segs) segs = some (g (resolveSegs node segs).2) := by
  induction segs with
  | nil => intro node; simp [modifyAtSegs, nodeAtSegs, resolveSegs]
  | cons s rest ih =>
    intro node
    simp only [modifyAtSegs, nodeAtSegs, ProjectNode.projects, lookup_setChild_self,
      resolveSegs_snd_cons]
    exact ih _

/-- Counting helper: updating through `setChild` with a node holding one more
frame than the node looked up raises the children count by one. -/
theorem countFrames_setChild (l : List (String × ProjectNode)) (k : String)
    (v : ProjectNode)
    (h : v.frames.length + countFramesChildren v.projects =
      ((lookupChild l k).getD emptyNode).frames.length +
        countFramesChildren ((lookupChild l k).getD emptyNode).projects + 1) :
    countFramesChildren (setChild l k v) = countFramesChildren l + 1 := by
  induction l with
  | nil =>
    obtain ⟨fs, ps⟩ := v
    simp [setChild, countFramesChildren, lookupChild, emptyNode, ProjectNode.frames,
      ProjectNode.projects] at h ⊢
    omega
  | cons hd rest ih =>
    obtain ⟨a, ⟨bfs, bps⟩⟩ := hd
    by_cases ha : a = k
    · obtain ⟨fs, ps⟩ := v
      simp [setChild, ha, countFramesChildren, lookupChild, ProjectNode.frames,
        ProjectNode.projects] at h ⊢
      omega
    · obtain ⟨fs, ps⟩ := v
      simp [setChild, ha, countFramesChildren, lookupChild, ProjectNode.frames,
        ProjectNode.projects] at h ih ⊢
      omega

/-- Appending one frame through the resolve-or-create walk adds exactly one
frame to the whole tree. -/
theorem countFrames_modifyAtSegs_append (f : RawFrame) (segs : List String) :
    ∀ node : ProjectNode,
      (modifyAtSegs (appendFrameNode f) node segs).frames.length +
        countFramesChildren (modifyAtSegs (appendFrameNode f) node segs).projects =
      node.frames.length + countFramesChildren node.projects + 1 := by
  induction segs with
  | nil =>
    intro node
    cases node with
    | mk fs ps =>
      simp [modifyAtSegs, appendFrameNode, ProjectNode.frames, ProjectNode.projects]
      omega
  | cons s rest ih =>
    intro node
    cases node with
    | mk fs ps =>
      simp only [modifyAtSegs, ProjectNode.frames, ProjectNode.projects]
      have hc := countFrames_setChild ps s
        (modifyAtSegs (appendFrameNode f) ((lookupChild ps s).getD emptyNode) rest)
        (ih _)
      omega

/-! ## C7: timestamp round-trip -/

/-- C7: formatting a timezone-aware instant yields its integer epoch-second
regardless of sub-second precision and timezone, and parsing that number
back yields an instant equal to the original to the second. -/
theorem timestamp_roundtrip :
    (∀ i : Instant, (parseDate (formatDate (.instant i))).sec = i.sec) ∧
    (∀ (s : Int) (m : Nat) (z : Int),
      formatDate (.instant { sec := s, micro := m, tz := z }) = s) ∧
    (∀ i : Instant, parseDate (formatDate (.instant i)) = { sec := i.sec, micro := 0, tz := 0 }) := by
  refine ⟨fun i => rfl, fun s m z => rfl, fun i => rfl⟩

/-! ## C8: resolve-or-create and path listing -/

/-- C8: resolving the same path twice returns the same node and leaves the
tree unchanged; resolving a path does not disturb the other children of the
nodes it walks through (in particular, resolving `a/b` and then `a/b/c`
leaves the other children of `a` unchanged); resolving `a/b` on an empty
tree creates exactly the nodes `a` and `a/b` with empty frames and children,
after which the sorted path listing is `["a", "a/b"]`. -/
theorem resolve_idempotent_and_paths :
    (∀ (w : Watson) (name : String),
      ((w.project name).1).project name = w.project name) ∧
    (∀ (node : ProjectNode) (s : String) (rest : List String) (k : String), k ≠ s →
      lookupChild ((resolveSegs node (s :: rest)).1).projects k = lookupChild node.projects k) ∧
    (∀ (w : Watson) (k : String), k ≠ "b" →
      ∃ n1 n2 : ProjectNode,
        nodeAtSegs ((w.project "a/b").1).tree ["a"] = some n1 ∧
        nodeAtSegs (((w.project "a/b").1.project "a/b/c").1).tree ["a"] = some n2 ∧
        lookupChild n2.projects k = lookupChild n1.projects k) ∧
    ((sampleEmpty.project "a/b").1.tree = .mk [] [("a", .mk [] [("b", .mk [] [])])]) ∧
    (Watson.projects (sampleEmpty.project "a/b").1 = ["a", "a/b"]) := by
  refine ⟨?_, ?_, ?_, ?_, ?_⟩
  · intro w name
    simp [Watson.project, resolveSegs_idem]
  · intro node s rest k h
    exact resolveSegs_sibling node s rest k h
  · intro w k hk
    have h1 : splitSlash "a/b" = ["a", "b"] := rfl
    have h2 : splitSlash "a/b/c" = ["a", "b", "c"] := rfl
    refine ⟨(resolveSegs ((lookupChild w.tree.projects "a").getD emptyNode) ["b"]).1,
      (resolveSegs ((resolveSegs ((lookupChild w.tree.projects "a").getD emptyNode) ["b"]).1)
        ["b", "c"]).1, ?_, ?_, ?_⟩
    · simp [Watson.project, h1, nodeAtSegs, resolveSegs_head_child]
    · simp [Watson.project, h1, h2, nodeAtSegs, resolveSegs_head_child]
    · exact resolveSegs_sibling _ "b" _ k hk
  · rfl
  · simp [Watson.projects, Watson.project, resolveSegs, splitSlash, splitSlashChars,
      lookupChild, setChild, emptyNode, sampleEmpty, ProjectNode.projects, getProjectsList]
    rfl

/-- Witness for C8: the general parts evaluated at concrete inputs, the
hypotheses discharged concretely. -/
theorem resolve_idempotent_and_paths_witness :
    (((sampleOneFrame.project "a/b").1).project "a/b" = sampleOneFrame.project "a/b") ∧
    (("x" : String) ≠ "b") ∧
    (∃ n1 n2 : ProjectNode,
      nodeAtSegs ((sampleOneFrame.project "a/b").1).tree ["a"] = some n1 ∧
      nodeAtSegs (((sampleOneFrame.project "a/b").1.project "a/b/c").1).tree ["a"] = some n2 ∧
      lookupChild n2.projects "x" = lookupChild n1.projects "x") :=
  ⟨resolve_idempotent_and_paths.1 sampleOneFrame "a/b", by decide,
    resolve_idempotent_and_paths.2.2.1 sampleOneFrame "x" (by decide)⟩

/-! ## C2: store persistence round-trip -/

/-- C2: loading the document `dump` produces yields a store observationally
equal to the original: the same children mapping (hence the same project
tree and the same frames, ids and messages included — the root node carries
no observable data of its own), and the same session state to the second.
A session started in this process round-trips to the raw epoch-second read
back from the file (the setter keeps numbers unparsed), which denotes the
same instant to the second. -/
theorem load_dump_roundtrip (now : Instant) (w : Watson) :
    (Watson.load now w.dump).tree.projects = w.tree.projects ∧
    sameSessionToSecond (Watson.load now w.dump).current w.current := by
  constructor
  · simp [Watson.load, Watson.dump, ProjectNode.projects]
  · cases hc : w.current with
    | none => simp [Watson.load, Watson.dump, setCurrentFromDoc, hc, sameSessionToSecond]
    | some c =>
      simp [Watson.load, Watson.dump, setCurrentFromDoc, hc, sameSessionToSecond, formatDate]

/-! ## C3: load error partitioning -/

/-- C3: a missing file loads as the empty store; a zero-length file (whose
contents fail JSON parsing) loads as the empty store; any other non-empty
unparseable file raises the corrupt-store failure; a parsed document missing
`projects` defaults to the empty tree and one missing `current` defaults to
the idle session. -/
theorem load_error_partitioning :
    (∀ now : Instant,
      watsonFromSource now .ioError = .ok { tree := .mk [] [], current := none }) ∧
    (∀ (now : Instant) (e : String),
      watsonFromSource now (.content 0 (.error e)) =
        .ok { tree := .mk [] [], current := none }) ∧
    (∀ (now : Instant) (n : Nat) (e : String), n ≠ 0 →
      watsonFromSource now (.content n (.error e)) = .error (.corruptStore e)) ∧
    (∀ (now : Instant) (cur : Option DocCurrent),
      (Watson.load now { projects := none, current := cur }).tree = .mk [] []) ∧
    (∀ (now : Instant) (pr : Option (List (String × ProjectNode))),
      (Watson.load now { projects := pr, current := none }).current = none) := by
  refine ⟨?_, ?_, ?_, ?_, ?_⟩
  · intro now
    simp [watsonFromSource, loadWatsonFile, Watson.load, setCurrentFromDoc, Except.map]
  · intro now e
    simp [watsonFromSource, loadWatsonFile, Watson.load, setCurrentFromDoc, Except.map]
  · intro now n e hn
    simp [watsonFromSource, loadWatsonFile, hn, Except.map]
  · intro now cur
    simp [Watson.load]
  · intro now pr
    simp [Watson.load, setCurrentFromDoc]

/-- Witness for C3: the corrupt-store case evaluated at a concrete non-empty
unparseable source. -/
theorem load_error_partitioning_witness :
    ((5 : Nat) ≠ 0) ∧
    watsonFromSource { sec := 0 } (.content 5 (.error "Expecting value")) =
      .error (.corruptStore "Expecting value") :=
  ⟨by decide, load_error_partitioning.2.2.1 { sec := 0 } 5 "Expecting value" (by decide)⟩

/-! ## C4: session exclusivity -/

/-- Counterexample to C4 as stated: a blank (all-whitespace, non-empty)
project name is not rejected — `if not project` only catches the empty
string, so `start(" ")` succeeds and starts a session on the project
named `" "`. -/
theorem start_blank_project_succeeds :
    sampleEmpty.start " " { sec := 0 } =
      .ok ({ tree := .mk [] [],
             current := some { project := " ", start := .instant { sec := 0 } } },
           { project := " ", start := .instant { sec := 0 } }) := by
  rfl

/-- C4 (amended): `start` while running fails with the already-running
failure; `start` with the empty-string project name fails with the
empty-project failure (a blank but non-empty name is accepted, see the
counterexample); `stop`/`cancel` while idle fail with the not-running
failure; a successful `stop` leaves the session idle and adds exactly one
frame, appended under the stopped project — and neither a successful `start`
nor a successful `cancel` touches the tree, so no other transition creates a
frame. -/
theorem session_exclusivity :
    (∀ (w : Watson) (p : String) (now : Instant) (c : CurrentRec),
      w.current = some c → w.start p now = .error .alreadyRunning) ∧
    (∀ (w : Watson) (now : Instant),
      w.current = none → w.start "" now = .error .emptyProject) ∧
    (∀ (w : Watson) (now : Instant) (msg : Option String),
      w.current = none → w.stop now msg = .error .notRunning) ∧
    (∀ w : Watson, w.current = none → w.cancel = .error .notRunning) ∧
    (∀ (w : Watson) (c : CurrentRec) (now : Instant) (msg : Option String),
      w.current = some c →
      ∃ w' : Watson, w.stop now msg = .ok (w', c) ∧
        w'.current = none ∧
        w'.totalFrames = w.totalFrames + 1 ∧
        ∃ tgt : ProjectNode,
          nodeAtSegs w'.tree (splitSlash c.project) = some tgt ∧
          tgt.frames = ((resolveSegs w.tree (splitSlash c.project)).2).frames ++
            [{ start := formatDate c.start, stop := formatDate (.instant now),
               message := truthyMessage msg, id := none }]) ∧
    (∀ (w w' : Watson) (p : String) (now : Instant) (c : CurrentRec),
      w.start p now = .ok (w', c) → w'.tree = w.tree) ∧
    (∀ (w w' : Watson) (c : CurrentRec),
      w.cancel = .ok (w', c) → w'.tree = w.tree) := by
  refine ⟨?_, ?_, ?_, ?_, ?_, ?_, ?_⟩
  · intro w p now c hc
    simp [Watson.start, Watson.isStarted, hc]
  · intro w now hc
    simp [Watson.start, Watson.isStarted, hc]
  · intro w now msg hc
    simp [Watson.stop, hc]
  · intro w hc
    simp [Watson.cancel, hc]
  · intro w c now msg hc
    refine ⟨{ w.addFrame c.project c.start (.instant now) msg with current := none }, ?_, rfl, ?_, ?_⟩
    · simp [Watson.stop, hc]
    · simpa [Watson.totalFrames, Watson.addFrame] using
        countFrames_modifyAtSegs_append _ (splitSlash c.project) w.tree
    · refine ⟨appendFrameNode
          { start := formatDate c.start, stop := formatDate (.instant now),
            message := truthyMessage msg, id := none }
          ((resolveSegs w.tree (splitSlash c.project)).2), ?_, ?_⟩
      · simpa [Watson.addFrame] using
          nodeAtSegs_modifyAtSegs
            (appendFrameNode
              { start := formatDate c.start, stop := formatDate (.instant now),
                message := truthyMessage msg, id := none })
            (splitSlash c.project) w.tree
      · simp [appendFrameNode, ProjectNode.frames]
  · intro w w' p now c hok
    rw [Watson.start] at hok
    by_cases h1 : w.isStarted
    · simp [h1] at hok
    · by_cases h2 : p = ""
      · simp [h1, h2] at hok
      · simp [h1, h2] at hok
        rw [← hok.1]
  · intro w w' c hok
    cases hc : w.current with
    | none => simp [Watson.cancel, hc] at hok
    | some old =>
      rw [Watson.cancel, hc] at hok
      simp at hok
      rw [← hok.1]

/-- Witness for C4: each part of the amended claim evaluated at a concrete
store, the hypotheses discharged concretely. -/
theorem session_exclusivity_witness :
    (sampleRunning.start "q" { sec := 9 } = .error .alreadyRunning) ∧
    (sampleOneFrame.start "" { sec := 9 } = .error .emptyProject) ∧
    (sampleOneFrame.stop { sec := 9 } none = .error .notRunning) ∧
    (sampleOneFrame.cancel = .error .notRunning) ∧
    (∃ w' : Watson, sampleRunning.stop { sec := 9 } none =
        .ok (w', { project := "a/b", start := .instant { sec := 5, micro := 250000, tz := 60 } }) ∧
      w'.current = none ∧
      w'.totalFrames = sampleRunning.totalFrames + 1 ∧
      ∃ tgt : ProjectNode,
        nodeAtSegs w'.tree (splitSlash "a/b") = some tgt ∧
        tgt.frames = ((resolveSegs sampleRunning.tree (splitSlash "a/b")).2).frames ++
          [{ start := formatDate (.instant { sec := 5, micro := 250000, tz := 60 }),
             stop := formatDate (.instant { sec := 9 }),
             message := truthyMessage none, id := none }]) ∧
    (({ tree := sampleOneFrame.tree,
        current := some { project := "q", start := DateVal.instant { sec := 9 } } } : Watson).tree =
      sampleOneFrame.tree) ∧
    (({ tree := sampleRunning.tree, current := none } : Watson).tree = sampleRunning.tree) :=
  ⟨session_exclusivity.1 sampleRunning "q" { sec := 9 } _ rfl,
   session_exclusivity.2.1 sampleOneFrame { sec := 9 } rfl,
   session_exclusivity.2.2.1 sampleOneFrame { sec := 9 } none rfl,
   session_exclusivity.2.2.2.1 sampleOneFrame rfl,
   session_exclusivity.2.2.2.2.1 sampleRunning _ { sec := 9 } none rfl,
   session_exclusivity.2.2.2.2.2.1 sampleOneFrame
     { tree := sampleOneFrame.tree,
       current := some { project := "q", start := DateVal.instant { sec := 9 } } }
     "q" { sec := 9 }
     { project := "q", start := DateVal.instant { sec := 9 } } rfl,
   session_exclusivity.2.2.2.2.2.2 sampleRunning
     { tree := sampleRunning.tree, current := none }
     { project := "a/b", start := .instant { sec := 5, micro := 250000, tz := 60 } } rfl⟩

/-! ## C5: the return value of stop -/

/-- Counterexample to C5 as stated: the value `stop` returns is the old
session record `{project, start}` and does not contain the stop instant —
stopping the same store at two different instants returns identical
session info. -/
theorem stop_return_lacks_stop_instant :
    (Except.map Prod.snd (sampleRunning.stop { sec := 100 } none) =
      Except.map Prod.snd (sampleRunning.stop { sec := 200 } none)) ∧
    Except.map Prod.snd (sampleRunning.stop { sec := 100 } none) =
      .ok { project := "a/b", start := .instant { sec := 5, micro := 250000, tz := 60 } } := by
  exact ⟨rfl, rfl⟩

/-- C5 (amended): a successful `stop` returns the just-closed session's
project and start instant (not the stop instant), appends the frame built
from that start and the stop instant under the stopped project, and leaves
the session idle. -/
theorem stop_returns_project_and_start :
    ∀ (w : Watson) (c : CurrentRec) (now : Instant) (msg : Option String),
      w.current = some c →
      ∃ w' : Watson, w.stop now msg = .ok (w', c) ∧ w'.current = none ∧
        ∃ tgt : ProjectNode,
          nodeAtSegs w'.tree (splitSlash c.project) = some tgt ∧
          tgt.frames = ((resolveSegs w.tree (splitSlash c.project)).2).frames ++
            [{ start := formatDate c.start, stop := formatDate (.instant now),
               message := truthyMessage msg, id := none }] := by
  intro w c now msg hc
  refine ⟨{ w.addFrame c.project c.start (.instant now) msg with current := none }, ?_, rfl, ?_⟩
  · simp [Watson.stop, hc]
  · refine ⟨appendFrameNode
        { start := formatDate c.start, stop := formatDate (.instant now),
          message := truthyMessage msg, id := none }
        ((resolveSegs w.tree (splitSlash c.project)).2), ?_, ?_⟩
    · simpa [Watson.addFrame] using
        nodeAtSegs_modifyAtSegs
          (appendFrameNode
            { start := formatDate c.start, stop := formatDate (.instant now),
              message := truthyMessage msg, id := none })
          (splitSlash c.project) w.tree
    · simp [appendFrameNode, ProjectNode.frames]

/-- Witness for C5: the amended claim applied to a concrete running store. -/
theorem stop_returns_project_and_start_witness :
    ∃ w' : Watson, sampleRunning.stop { sec := 9 } (some "done") =
        .ok (w', { project := "a/b", start := .instant { sec := 5, micro := 250000, tz := 60 } }) ∧
      w'.current = none ∧
      ∃ tgt : ProjectNode,
        nodeAtSegs w'.tree (splitSlash "a/b") = some tgt ∧
        tgt.frames = ((resolveSegs sampleRunning.tree (splitSlash "a/b")).2).frames ++
          [{ start := formatDate (.instant { sec := 5, micro := 250000, tz := 60 }),
             stop := formatDate (.instant { sec := 9 }),
             message := truthyMessage (some "done"), id := none }] :=
  stop_returns_project_and_start sampleRunning _ { sec := 9 } (some "done") rfl

/-! ## Shared lemmas for C9: stability of the sort, path characterization -/

theorem filter_orderedInsert_key_eq (t : Int) (a : FlatFrame) (l : List FlatFrame)
    (ha : frameKey a = t) :
    (List.orderedInsert frameLe a l).filter (fun f => frameKey f == t) =
      a :: l.filter (fun f => frameKey f == t) := by
  induction l with
  | nil => simp [ha]
  | cons b rest ih =>
    by_cases h : frameLe a b
    · simp [List.orderedInsert, h, ha]
    · have hb : ¬ frameKey b = t := by
        simp only [frameLe] at h
        omega
      simp [List.orderedInsert, h, hb, ih]

theorem filter_orderedInsert_key_ne (t : Int) (a : FlatFrame) (l : List FlatFrame)
    (ha : ¬ frameKey a = t) :
    (List.orderedInsert frameLe a l).filter (fun f => frameKey f == t) =
      l.filter (fun f => frameKey f == t) := by
  induction l with
  | nil => simp [ha]
  | cons b rest ih =>
    by_cases h : frameLe a b
    · simp [List.orderedInsert, h, ha]
    · simp [List.orderedInsert, h, List.filter_cons, ih]

/-- A stable ascending sort keeps the elements of every tie class in input
order: filtering the sorted list down to one key value gives exactly the
input filtered to that key value. -/
theorem insertionSort_filter_key (t : Int) (l : List FlatFrame) :
    (List.insertionSort frameLe l).filter (fun f => frameKey f == t) =
      l.filter (fun f => frameKey f == t) := by
  induction l with
  | nil => rfl
  | cons a rest ih =>
    by_cases ha : frameKey a = t
    · rw [List.insertionSort, filter_orderedInsert_key_eq t a _ ha, ih]
      simp [ha]
    · rw [List.insertionSort, filter_orderedInsert_key_ne t a _ ha, ih]
      simp [ha]

theorem joinPath_cons (s : String) (rest : List String) (h : rest ≠ []) :
    joinPath (s :: rest) = s ++ "/" ++ joinPath rest := by
  cases rest with
  | nil => exact absurd rfl h
  | cons b r => rfl

theorem nodeAtSegs_eq_nodeAtChildren (node : ProjectNode) (s : String) (rest : List String) :
    nodeAtSegs node (s :: rest) = nodeAtChildren node.projects (s :: rest) := by
  cases hl : lookupChild node.projects s with
  | none => simp [nodeAtSegs, nodeAtChildren, hl]
  | some c => simp [nodeAtSegs, nodeAtChildren, hl]

theorem lookupChild_mem_keys (l : List (String × ProjectNode)) (s : String)
    (c : ProjectNode) (h : lookupChild l s = some c) : s ∈ l.map Prod.fst := by
  induction l with
  | nil => simp [lookupChild] at h
  | cons hd rest ih =>
    obtain ⟨k, v⟩ := hd
    by_cases hk : k = s
    · simp [hk]
    · simp [lookupChild, hk] at h
      simp [ih h]

/-- Characterization of the flattening traversal: under unique child keys,
a flat frame is produced exactly when some reachable node holds a raw frame
matching it, and its `project` field is the ancestor string followed by the
`'/'`-joined path of that node. -/
theorem mem_getFramesChildren (f : FlatFrame) :
    ∀ (children : List (String × ProjectNode)) (anc : String),
      childrenWF children = true →
      (f ∈ getFramesChildren children anc ↔
        ∃ (segs : List String) (tgt : ProjectNode) (rf : RawFrame),
          segs ≠ [] ∧ nodeAtChildren children segs = some tgt ∧ rf ∈ tgt.frames ∧
          f = { project := anc ++ joinPath segs, id := rf.id,
                start := parseDate rf.start, stop := parseDate rf.stop }) := by
  intro children anc
  induction children, anc using getFramesChildren.induct with
  | case1 anc =>
    intro _
    simp only [getFramesChildren, List.not_mem_nil, false_iff]
    rintro ⟨segs, tgt, rf, hne, hat, -, -⟩
    cases segs with
    | nil => exact hne rfl
    | cons s rest => simp [nodeAtChildren, lookupChild] at hat
  | case2 name fs ps rest anc ih1 ih2 =>
    intro hwf
    simp only [childrenWF, Bool.and_eq_true] at hwf
    obtain ⟨⟨hname, hps⟩, hrest⟩ := hwf
    have hnotin : name ∉ rest.map Prod.fst := by
      intro hmem
      obtain ⟨⟨k, v⟩, hkv, hk⟩ := List.mem_map.1 hmem
      simp at hname hk
      subst hk
      exact hname v hkv
    constructor
    · intro hmem
      simp only [getFramesChildren, List.mem_append, List.mem_map] at hmem
      rcases hmem with (⟨rf, hrf, hfe⟩ | hmid) | hright
      · refine ⟨[name], .mk fs ps, rf, by simp, ?_, ?_, ?_⟩
        · simp [nodeAtChildren, lookupChild, nodeAtSegs]
        · simpa [ProjectNode.frames] using hrf
        · simpa [joinPath] using hfe.symm
      · obtain ⟨segs, tgt, rf, hne, hat, hrf, hfe⟩ := (ih1 hps).mp hmid
        cases segs with
        | nil => exact absurd rfl hne
        | cons s2 r2 =>
          refine ⟨name :: s2 :: r2, tgt, rf, by simp, ?_, hrf, ?_⟩
          · have h2 : nodeAtChildren ((name, ProjectNode.mk fs ps) :: rest) (name :: s2 :: r2) =
                nodeAtSegs (ProjectNode.mk fs ps) (s2 :: r2) := by
              simp [nodeAtChildren, lookupChild]
            rw [h2, nodeAtSegs_eq_nodeAtChildren]
            simpa [ProjectNode.projects] using hat
          · rw [hfe]
            rw [joinPath_cons name (s2 :: r2) (by simp)]
            simp [String.append_assoc]
      · obtain ⟨segs, tgt, rf, hne, hat, hrf, hfe⟩ := (ih2 hrest).mp hright
        cases segs with
        | nil => exact absurd rfl hne
        | cons s rest' =>
          have hl : ∃ c, lookupChild rest s = some c := by
            cases hl : lookupChild rest s with
            | none => simp [nodeAtChildren, hl] at hat
            | some c => exact ⟨c, rfl⟩
          obtain ⟨c, hc⟩ := hl
          have hsname : ¬ name = s := by
            intro h
            exact hnotin (h ▸ lookupChild_mem_keys rest s c hc)
          refine ⟨s :: rest', tgt, rf, by simp, ?_, hrf, hfe⟩
          simpa [nodeAtChildren, lookupChild, hsname] using hat
    · rintro ⟨segs, tgt, rf, hne, hat, hrf, hfe⟩
      cases segs with
      | nil => exact absurd rfl hne
      | cons s rest' =>
        simp only [getFramesChildren, List.mem_append, List.mem_map]
        by_cases hs : name = s
        · subst hs
          have hat' : nodeAtSegs (ProjectNode.mk fs ps) rest' = some tgt := by
            simpa [nodeAtChildren, lookupChild] using hat
          cases rest' with
          | nil =>
            have htgt : ProjectNode.mk fs ps = tgt := by simpa [nodeAtSegs] using hat'
            subst htgt
            refine Or.inl (Or.inl ⟨rf, by simpa [ProjectNode.frames] using hrf, ?_⟩)
            simpa [joinPath] using hfe.symm
          | cons s2 r2 =>
            rw [nodeAtSegs_eq_nodeAtChildren] at hat'
            refine Or.inl (Or.inr ((ih1 hps).mpr ⟨s2 :: r2, tgt, rf, by simp, ?_, hrf, ?_⟩))
            · simpa [ProjectNode.projects] using hat'
            · rw [hfe, joinPath_cons name (s2 :: r2) (by simp)]
              simp [String.append_assoc]
        · refine Or.inr ((ih2 hrest).mpr ⟨s :: rest', tgt, rf, by simp, ?_, hrf, hfe⟩)
          simpa [nodeAtChildren, lookupChild, hs] using hat

/-! ## C9: global frame listing order -/

/-- C9: `frames()` is sorted by start ascending; it holds exactly the frames
the traversal of every project node produces (as a permutation); frames with
equal start values appear in traversal order (children in encounter order,
frames in insertion order inside a node, a node's own frames before its
subtree); and, under the dict invariant of unique child keys, its entries
are exactly the raw frames of the reachable nodes, each carrying the full
`'/'`-joined path of its owning node. -/
theorem frames_sorted_stable_complete :
    (∀ w : Watson, (w.frames).Pairwise frameLe) ∧
    (∀ w : Watson, (w.frames).Perm (getFramesChildren w.tree.projects "")) ∧
    (∀ (w : Watson) (t : Int),
      (w.frames).filter (fun f => frameKey f == t) =
        (getFramesChildren w.tree.projects "").filter (fun f => frameKey f == t)) ∧
    (∀ w : Watson, childrenWF w.tree.projects = true →
      ∀ f : FlatFrame,
        f ∈ w.frames ↔
          ∃ (segs : List String) (tgt : ProjectNode) (rf : RawFrame),
            segs ≠ [] ∧ nodeAtChildren w.tree.projects segs = some tgt ∧ rf ∈ tgt.frames ∧
            f = { project := joinPath segs, id := rf.id,
                  start := parseDate rf.start, stop := parseDate rf.stop }) := by
  refine ⟨?_, ?_, ?_, ?_⟩
  · intro w
    exact List.sorted_insertionSort frameLe _
  · intro w
    exact List.perm_insertionSort frameLe _
  · intro w t
    exact insertionSort_filter_key t _
  · intro w hwf f
    rw [Watson.frames, (List.perm_insertionSort frameLe _).mem_iff]
    have h := mem_getFramesChildren f w.tree.projects "" hwf
    simpa using h

/-- Witness for C9: the characterization applied to a concrete store, the
well-formedness hypothesis discharged by evaluation. -/
theorem frames_sorted_stable_complete_witness :
    (childrenWF sampleRunning.tree.projects = true) ∧
    (({ project := "a/b", id := none, start := parseDate 3, stop := parseDate 4 } : FlatFrame) ∈
        Watson.frames sampleRunning ↔
      ∃ (segs : List String) (tgt : ProjectNode) (rf : RawFrame),
        segs ≠ [] ∧ nodeAtChildren sampleRunning.tree.projects segs = some tgt ∧
        rf ∈ tgt.frames ∧
        ({ project := "a/b", id := none, start := parseDate 3, stop := parseDate 4 } : FlatFrame) =
          { project := joinPath segs, id := rf.id,
            start := parseDate rf.start, stop := parseDate rf.stop }) :=
  ⟨by simp [sampleRunning, ProjectNode.projects, childrenWF],
   frames_sorted_stable_complete.2.2.2 sampleRunning
     (by simp [sampleRunning, ProjectNode.projects, childrenWF]) _⟩

/-! ## C10: the flattened view drops annotations -/

/-- Erasing every stored message does not change the flattening traversal:
the flat records carry only path, id and parsed dates. -/
theorem getFrames_eraseMsg :
    ∀ (l : List (String × ProjectNode)) (anc : String),
      getFramesChildren (eraseMsgChildren l) anc = getFramesChildren l anc := by
  intro l anc
  induction l, anc using getFramesChildren.induct with
  | case1 anc => simp [eraseMsgChildren]
  | case2 name fs ps rest anc ih1 ih2 =>
    simp [eraseMsgChildren, getFramesChildren, ih1, ih2, ProjectNode.frames,
      ProjectNode.projects, List.map_map, Function.comp]

/-- C10: each entry of `frames()` holds exactly the keys `project`, `id`,
`start` and `stop` (the `FlatFrame` record); the stored messages never reach
it — erasing all messages leaves `frames()` and hence the sync batches
unchanged — even though a truthy message passed to `add_frame` is stored in
the tree record and is part of the serialized document. -/
theorem frames_drop_messages :
    (∀ w : Watson, (w.eraseMessages).frames = w.frames) ∧
    (∀ w : Watson, newFrames w.eraseMessages = newFrames w) ∧
    (∀ (w : Watson) (force : Bool),
      existingFrames w.eraseMessages force = existingFrames w force) ∧
    (∀ (w : Watson) (p : String) (start stop : DateVal) (m : String), ¬ m = "" →
      ∃ tgt : ProjectNode,
        nodeAtSegs (w.addFrame p start stop (some m)).tree (splitSlash p) = some tgt ∧
        tgt.frames = ((resolveSegs w.tree (splitSlash p)).2).frames ++
          [{ start := formatDate start, stop := formatDate stop,
             message := some m, id := none }] ∧
        (w.addFrame p start stop (some m)).dump.projects =
          some ((w.addFrame p start stop (some m)).tree.projects)) := by
  refine ⟨?_, ?_, ?_, ?_⟩
  · intro w
    simp [Watson.frames, Watson.eraseMessages, ProjectNode.projects, getFrames_eraseMsg]
  · intro w
    simp [newFrames, pushFrameItems, Watson.frames, Watson.eraseMessages,
      ProjectNode.projects, getFrames_eraseMsg]
  · intro w force
    simp [existingFrames, pushFrameItems, Watson.frames, Watson.eraseMessages,
      ProjectNode.projects, getFrames_eraseMsg]
  · intro w p start stop m hm
    refine ⟨appendFrameNode
        { start := formatDate start, stop := formatDate stop,
          message := truthyMessage (some m), id := none }
        ((resolveSegs w.tree (splitSlash p)).2), ?_, ?_, rfl⟩
    · simpa [Watson.addFrame] using
        nodeAtSegs_modifyAtSegs
          (appendFrameNode
            { start := formatDate start, stop := formatDate stop,
              message := truthyMessage (some m), id := none })
          (splitSlash p) w.tree
    · simp [appendFrameNode, ProjectNode.frames, truthyMessage, hm]

/-- Witness for C10: the message-storing part applied at a concrete store
with a concrete non-empty message. -/
theorem frames_drop_messages_witness :
    (¬ ("note" : String) = "") ∧
    (∃ tgt : ProjectNode,
      nodeAtSegs (sampleOneFrame.addFrame "a" (.num 7) (.num 8) (some "note")).tree
        (splitSlash "a") = some tgt ∧
      tgt.frames = ((resolveSegs sampleOneFrame.tree (splitSlash "a")).2).frames ++
        [{ start := formatDate (.num 7), stop := formatDate (.num 8),
           message := some "note", id := none }] ∧
      (sampleOneFrame.addFrame "a" (.num 7) (.num 8) (some "note")).dump.projects =
        some ((sampleOneFrame.addFrame "a" (.num 7) (.num 8) (some "note")).tree.projects)) :=
  ⟨by simp, frames_drop_messages.2.2.2 sampleOneFrame "a" (.num 7) (.num 8) "note" (by simp)⟩

/-! ## C1: sync id write-back -/

/-- C1 (code-bug evaluation): a successful `push` with `force=False` creates
every id-less frame remotely and returns the created batch with the remote
ids — but the store itself is never written: the id assignments in `push`
land on the fresh dicts `frames()`/`push` built, not on the tree's raw frame
records (the embedded `push` accordingly has no store output at all). The
raw record of the sample store still carries no id after the call, so a
second sync reads the unchanged store and submits the same frame again
(`newFrames` has length 1, not 0); only a store that actually carried the
written-back id would submit nothing. -/
theorem push_does_not_write_back_ids :
    (∀ (w : Watson) (ids : List Int),
      Watson.push w false { post := .response 201 ids, put := .response 200 () } =
        .ok (assignIds (newFrames w) ids)) ∧
    (Watson.push sampleOneFrame false { post := .response 201 [42], put := .response 200 () } =
      .ok [.created 42 "1970-01-01T00:00:00+00:00" "1970-01-01T00:00:01+00:00"]) ∧
    ((newFrames sampleOneFrame).length = 1) ∧
    ((newFrames sampleOneFrameSynced).length = 0) := by
  refine ⟨?_, ?_, ?_, ?_⟩
  · intro w ids
    have hex : existingFrames w false = [] := rfl
    cases hn : newFrames w with
    | nil =>
      cases ids with
      | nil => simp [Watson.push, hn, hex, assignIds]
      | cons i rest => simp [Watson.push, hn, hex, assignIds]
    | cons a rest => simp [Watson.push, hn, hex]
  · simp [Watson.push, newFrames, existingFrames, pushFrameItems, Watson.frames,
      sampleOneFrame, ProjectNode.projects, getFramesChildren, mkPushItem, assignIds]
    exact ⟨rfl, rfl⟩
  · simp [newFrames, pushFrameItems, Watson.frames, sampleOneFrame,
      ProjectNode.projects, getFramesChildren, mkPushItem]
  · simp [newFrames, pushFrameItems, Watson.frames, sampleOneFrameSynced,
      ProjectNode.projects, getFramesChildren, mkPushItem]

/-! ## C6: the shape of the creation batch -/

/-- Counterexample to C6 as stated: the submitted creation batch DOES carry
an `id` field on every item — the dict `push` builds always has the `'id'`
key, and `json.dumps` serializes its `None` value as `null` rather than
dropping the key. -/
theorem create_batch_item_has_id_key :
    newFrames sampleOneFrame =
      [{ id := none, start := "1970-01-01T00:00:00+00:00",
         stop := "1970-01-01T00:00:01+00:00", project := ["a"] }] ∧
    PushItem.toJson
      { id := none, start := "1970-01-01T00:00:00+00:00",
        stop := "1970-01-01T00:00:01+00:00", project := ["a"] } =
      .obj [("id", .null), ("start", .str "1970-01-01T00:00:00+00:00"),
            ("stop", .str "1970-01-01T00:00:01+00:00"),
            ("project", .arr [.str "a"])] := by
  constructor
  · simp [newFrames, pushFrameItems, Watson.frames, sampleOneFrame,
      ProjectNode.projects, getFramesChildren, mkPushItem]
    exact ⟨rfl, rfl, rfl⟩
  · rfl

/-- C6 (amended): every item of the submitted creation batch has a `None`
id, start and stop in the canonical string form of the frame's instants and
the project path split on `'/'`; its JSON form carries the keys `id`
(bound to `null`), `start`, `stop` and `project`. -/
theorem create_batch_shape :
    ∀ (w : Watson) (item : PushItem), item ∈ newFrames w →
      item.id = none ∧
      (∃ f ∈ w.frames, item = mkPushItem f ∧ item.start = instantStr f.start ∧
        item.stop = instantStr f.stop ∧ item.project = splitSlash f.project) ∧
      PushItem.toJson item =
        .obj [("id", .null), ("start", .str item.start), ("stop", .str item.stop),
              ("project", .arr (item.project.map .str))] := by
  intro w item hmem
  rw [newFrames, List.mem_filter] at hmem
  obtain ⟨hmem, hid⟩ := hmem
  have hidn : item.id = none := by simpa using hid
  refine ⟨hidn, ?_, ?_⟩
  · rw [pushFrameItems, List.mem_map] at hmem
    obtain ⟨f, hf, hfe⟩ := hmem
    exact ⟨f, hf, hfe.symm, by rw [← hfe]; rfl, by rw [← hfe]; rfl, by rw [← hfe]; rfl⟩
  · simp [PushItem.toJson, hidn]

/-- Witness for C6: the amended claim applied to the one item of a concrete
store's creation batch, the membership hypothesis discharged by evaluation. -/
theorem create_batch_shape_witness :
    (samplePushItem ∈ newFrames sampleOneFrame) ∧
    (∃ f ∈ sampleOneFrame.frames, samplePushItem = mkPushItem f) := by
  have he : newFrames sampleOneFrame = [samplePushItem] := by
    simp [newFrames, pushFrameItems, Watson.frames, sampleOneFrame, samplePushItem,
      ProjectNode.projects, getFramesChildren, mkPushItem]
    exact ⟨rfl, rfl, rfl⟩
  have hmem : samplePushItem ∈ newFrames sampleOneFrame := by
    rw [he]
    exact List.mem_singleton.mpr rfl
  obtain ⟨-, ⟨f, hf, hfe, -, -, -⟩, -⟩ := create_batch_shape sampleOneFrame _ hmem
  exact ⟨hmem, ⟨f, hf, hfe⟩⟩
